import Mathlib

/-!
Verification development for the tachyon shared-memory IPC core.

The definitions below are a shallow embedding of the C++ sources:
  - lib/mpsc_queue_internal.cc  (VolatileCopy, IntLog2)
  - lib/mpsc_queue_impl.h       (MpscQueue: Reserve, DoEnqueue, DequeueNext, DoWriteBlocking)
  - lib/queue_impl.h            (Queue: Enqueue broadcast, subqueue descriptor life cycle)
  - lib/ipc/pool.cc             (Pool: DefineSegment, SetSegment, Allocate, AllocateAt, Free)
  - lib/shared_hashmap.h / lib/shared_hashmap_impl.h (bucket chaining)

Machine integers are modelled as Nat (with explicit reductions modulo two to a
power where overflow matters) or as Int where the C++ type is a signed int that
can go negative.  Memory is modelled as byte lists or as functions from
addresses to byte values.  Fences and mutex acquisition are no-ops in this
sequential model and are therefore omitted.
-/

namespace Tachyon

/-! ## Byte memory primitives (for VolatileCopy) -/

/-- Store one byte: memory with address `a` updated to hold `v`. -/
def writeByte (mem : Nat → Nat) (a v : Nat) : Nat → Nat :=
  fun x => if x = a then v else mem x

/-- Store the 8 bytes at `src .. src+7` to `dest .. dest+7`, the byte-level
effect of the single 64-bit move `*dest_long++ = *src_long++`. -/
def write8 (mem : Nat → Nat) (dest src : Nat) : Nat → Nat :=
  fun x => if dest ≤ x ∧ x < dest + 8 then mem (src + (x - dest)) else mem x

/-- The 64-bit copy loop of VolatileCopy, `while (length >= 8)`: it runs exactly
`length / 8` iterations, advancing both pointers by 8 each time.  `k` is the
number of iterations left. -/
def copyChunks (mem : Nat → Nat) (dest src k : Nat) : Nat → Nat :=
  match k with
  | 0 => mem
  | k + 1 => copyChunks (write8 mem dest src) (dest + 8) (src + 8) k

/-- The byte copy loop of VolatileCopy, `while (length--)`. -/
def copyBytes (mem : Nat → Nat) (dest src length : Nat) : Nat → Nat :=
  match length with
  | 0 => mem
  | n + 1 => copyBytes (writeByte mem dest (mem src)) (dest + 1) (src + 1) n

/-- VolatileCopy (mpsc_queue_internal.cc).  If both pointers are 4-byte aligned
the 64-bit loop copies `length / 8` chunks, leaving `length % 8` in `length`;
the trailing byte loop then starts over from `dest_byte = (uint8_t *) dest` and
`src_byte = (uint8_t *) src`, i.e. from the ORIGINAL pointers, exactly as the
source does.  Unaligned inputs take only the byte loop. -/
def VolatileCopy (mem : Nat → Nat) (dest src length : Nat) : Nat → Nat :=
  if dest % 4 = 0 ∧ src % 4 = 0 then
    copyBytes (copyChunks mem dest src (length / 8)) dest src (length % 8)
  else
    copyBytes mem dest src length

/-! ## IntLog2 and the wrapping mask (mpsc_queue_internal.cc, InitCommon) -/

/-- Loop body of IntLog2: `for (*log = 0; *log < 32; ++(*log))` with the break
on a set low bit.  `fuel` is the number of loop iterations left (32 at entry),
so the loop condition `*log < 32` is `fuel > 0`.  Returns the final
`(input, *log)`. -/
def IntLog2Go (fuel input log : Nat) : Nat × Nat :=
  match fuel with
  | 0 => (input, log)
  | f + 1 =>
    if input % 2 = 1 then (input, log)
    else IntLog2Go f (input / 2) (log + 1)

/-- IntLog2 (mpsc_queue_internal.cc): returns `(input == 1` after the loop`, *log)`. -/
def IntLog2 (input : Nat) : Bool × Nat :=
  let r := IntLog2Go 32 input 0
  (r.1 == 1, r.2)

/-- InitCommon (mpsc_queue_impl.h): the wrapping mask computed from
`array_length_shifts`.  A shift count of 0 is special-cased; otherwise the mask
is `UINT32_MAX >> (32 - shifts)`. -/
def wrappingMask (shifts : Nat) : Nat :=
  if shifts = 0 then 0
  else (2 ^ 32 - 1) >>> (32 - shifts)

/-! ## The DoWriteBlocking wait guard (mpsc_queue_impl.h, lines 159-183) -/

/-- Continue condition of the wait loop in DoWriteBlocking, computed from one
read of the 32-bit `write_waiters` word `ww` and the ticket `myWaitNumber`:
  - `t`     is `my_wait_number &= 0x7FFF`;
  - `woken` is `(write_waiters >> 16) & 0x7FFF`;
  - `inverted` is the C++ expression
    `(write_waiters & (1 << 15)) != (write_waiters & (1 << 31))`, a comparison
    of the two masked 32-bit values (which are equal only when both are zero);
the loop keeps waiting while
`(!inverted && woken < t) || (inverted && woken > t)`. -/
def doWriteBlockingWaits (ww myWaitNumber : Nat) : Bool :=
  let t := myWaitNumber % 2 ^ 15
  let woken := (ww >>> 16) % 2 ^ 15
  let inverted : Bool := decide (ww &&& 2 ^ 15 ≠ ww &&& 2 ^ 31)
  (!inverted && decide (woken < t)) || (inverted && decide (woken > t))

/-- The epoch bit of the low (ticket) half of `write_waiters`: bit 15. -/
def epochLow (ww : Nat) : Nat := (ww >>> 15) % 2

/-- The epoch bit of the high (woken) half of `write_waiters`: bit 31. -/
def epochHigh (ww : Nat) : Nat := (ww >>> 31) % 2

/-- The wait condition as the specification states it: wait while `W < T` under
normal ordering, or while `W > T` under inverted ordering, where the inverted
ordering applies exactly when the two epoch bits (bit 15 of each half) DIFFER. -/
def specWaitCondition (ww myWaitNumber : Nat) : Bool :=
  let t := myWaitNumber % 2 ^ 15
  let woken := (ww >>> 16) % 2 ^ 15
  let inverted : Bool := decide (epochLow ww ≠ epochHigh ww)
  (!inverted && decide (woken < t)) || (inverted && decide (woken > t))

/-! ## SharedHashmap bucket chaining (shared_hashmap.h, shared_hashmap_impl.h) -/

/-- A pool is mapped into a process at some base address; a structure that
lives at pool offset `off` has local address `base + off` in that process
(Pool::AtOffset). -/
def poolAddress (base off : Nat) : Nat := base + off

/-- The value that AddOrSet stores into the chaining field of a bucket when it
links a fresh overflow bucket: the C++ statement is `bucket->next = new_bucket`
where `next` is declared `Bucket *next` in shared_hashmap.h, so the RAW LOCAL
POINTER of the writing process is what lands in shared memory. -/
def addOrSetStoredNext (writerBase newBucketOffset : Nat) : Nat :=
  poolAddress writerBase newBucketOffset

/-- The address FindBucket dereferences when it walks a chain: the statement
`bucket = bucket->next` uses the stored word directly as an address, with no
offset translation. -/
def chainFollowAddress (storedNext : Nat) : Nat := storedNext

/-! ## Subqueue descriptor life cycle (queue.h, queue_impl.h) -/

/-- The shared words of one subqueue descriptor (struct Subqueue in queue.h);
the ring offset is irrelevant to the state invariant and omitted. -/
structure Subqueue where
  dead : Nat
  valid : Nat
  numReferences : Nat
deriving DecidableEq

/-- FREE state of a descriptor: dead = 1, valid = 0, no references. -/
def descFREE (d : Subqueue) : Bool :=
  d.dead == 1 && d.valid == 0 && d.numReferences == 0

/-- LIVE state of a descriptor: dead = 0, valid = 1, at least one reference. -/
def descLIVE (d : Subqueue) : Bool :=
  d.dead == 0 && d.valid == 1 && decide (1 ≤ d.numReferences)

/-- DYING state of a descriptor: dead = 0, valid = 0, at least one reference. -/
def descDYING (d : Subqueue) : Bool :=
  d.dead == 0 && d.valid == 0 && decide (1 ≤ d.numReferences)

/-- The three-state predicate asserted by the specification. -/
def threeState (d : Subqueue) : Bool :=
  descFREE d || descLIVE d || descDYING d

/-- The four-state predicate that actually holds: the three specified states
plus the transient claimed-but-unreferenced state dead = 0, valid = 0,
num_references = 0. -/
def fourState (d : Subqueue) : Bool :=
  threeState d || (d.dead == 0 && d.valid == 0 && d.numReferences == 0)

/-- The individual atomic writes that MakeOwnSubqueue, AddSubqueue,
RemoveSubqueue and the consumer-handle destructor perform on one descriptor
(queue_impl.h), as a step relation:
  - claimDead: the CAS `dead: 1 -> 0` at the top of MakeOwnSubqueue;
  - initRefs: the store `num_references = 1` in MakeOwnSubqueue;
  - publish: the `Exchange(valid, 1)` in MakeOwnSubqueue;
  - addRef: the CAS `num_references: r -> r + 1` in AddSubqueue, which is
    only attempted after observing r nonzero;
  - invalidate: the `Exchange(valid, 0)` in the destructor of the owning
    consumer handle, which still holds its own reference;
  - dropRef: the `ExchangeAdd(num_references, -1)` in RemoveSubqueue when the
    caller is not the last holder (while valid = 1 the owner still holds a
    reference, so a producer release always sees r at least 2);
  - lastDrop: the final `ExchangeAdd(num_references, -1)` in RemoveSubqueue
    (previous value 1, only after the owner has invalidated);
  - markDead: the `Exchange(dead, 1)` that ends RemoveSubqueue on the last
    holder. -/
inductive DescStep : Subqueue → Subqueue → Prop
  | claimDead : DescStep ⟨1, 0, 0⟩ ⟨0, 0, 0⟩
  | initRefs : DescStep ⟨0, 0, 0⟩ ⟨0, 0, 1⟩
  | publish : DescStep ⟨0, 0, 1⟩ ⟨0, 1, 1⟩
  | addRef (v r : Nat) : 1 ≤ r → DescStep ⟨0, v, r⟩ ⟨0, v, r + 1⟩
  | invalidate (r : Nat) : DescStep ⟨0, 1, r⟩ ⟨0, 0, r⟩
  | dropRef (v r : Nat) : 2 ≤ r → DescStep ⟨0, v, r⟩ ⟨0, v, r - 1⟩
  | lastDrop : DescStep ⟨0, 0, 1⟩ ⟨0, 0, 0⟩
  | markDead : DescStep ⟨0, 0, 0⟩ ⟨1, 0, 0⟩

/-- Descriptor states reachable from FREE (the state DoCreate initializes every
descriptor to) through any sequence of the atomic writes above. -/
inductive DescReachable : Subqueue → Prop
  | init : DescReachable ⟨1, 0, 0⟩
  | step {d d' : Subqueue} : DescReachable d → DescStep d d' → DescReachable d'

/-! ## The Ring (single-consumer MPSC queue, mpsc_queue_impl.h) -/

/-- Increment of a 32-bit word (ExchangeAdd by 1 / Increment). -/
def inc32 (x : Nat) : Nat := (x + 1) % 2 ^ 32

/-- Decrement of a 32-bit word (the atomic `decl`, wrapping). -/
def dec32 (x : Nat) : Nat := (x + (2 ^ 32 - 1)) % 2 ^ 32

/-- One ring slot (struct Node in mpsc_queue.h): the payload, the valid word
(0 empty, 1 filled, 2 consumer-waiting) and the two 16-bit halves of the
write_waiters word (low half: producer tickets, high half: woken counter). -/
structure Slot where
  value : Nat
  valid : Nat
  waitCounter : Nat
  wokenCounter : Nat
deriving DecidableEq

/-- A freshly initialized slot (DoCreate zeroes valid and write_waiters). -/
def Slot.init : Slot := ⟨0, 0, 0, 0⟩

/-- A ring handle: the shared RawQueue words (write_length, head_index,
array_length, the slot array) together with the handle-local wrapping_mask_
and the consumer-local tail_index_. -/
structure Ring where
  writeLength : Nat
  headIndex : Nat
  arrayLength : Nat
  wrappingMask : Nat
  slots : List Slot
  tailIndex : Nat
deriving DecidableEq

/-- DoCreate plus InitCommon (mpsc_queue_impl.h): a fresh ring of `size` slots
(DoCreate asserts via IntLog2 that `size` is a power of two and records the
shift count; InitCommon turns the shift count into the wrapping mask). -/
def ringCreate (size : Nat) : Ring :=
  ⟨0, 0, size, wrappingMask (IntLog2 size).2, List.replicate size Slot.init, 0⟩

/-- Reserve (mpsc_queue_impl.h lines 98-111): ExchangeAdd(write_length, 1);
if the previous value was already at capacity, Decrement back and fail. -/
def Reserve (q : Ring) : Bool × Ring :=
  let oldLength := q.writeLength
  let q1 : Ring := { q with writeLength := inc32 q.writeLength }
  if oldLength ≥ q.arrayLength then
    (false, { q1 with writeLength := dec32 q1.writeLength })
  else
    (true, q1)

/-- DoEnqueue with can_block = false (mpsc_queue_impl.h lines 119-157):
claim a head index by ExchangeAdd, wrap both the stored head and the claimed
index with the mask, take a ticket on the low half of the write_waiters word,
copy the payload, and Exchange the valid word to 1.  (For the payload sizes
used here the VolatileCopy is byte-exact, so the copy is modelled as a plain
store of the item.) -/
def DoEnqueue (q : Ring) (item : Nat) : Ring :=
  let oldHead := q.headIndex
  let q1 : Ring := { q with headIndex := inc32 q.headIndex }
  let q2 : Ring := { q1 with headIndex := q1.headIndex &&& q1.wrappingMask }
  let idx := oldHead &&& q2.wrappingMask
  let s := q2.slots.getD idx Slot.init
  let s1 : Slot := { s with waitCounter := (s.waitCounter + 1) % 2 ^ 16 }
  let s2 : Slot := { s1 with value := item, valid := 1 }
  { q2 with slots := q2.slots.set idx s2 }

/-- EnqueueAt (mpsc_queue_impl.h lines 113-116). -/
def EnqueueAt (q : Ring) (item : Nat) : Ring := DoEnqueue q item

/-- CancelReservation (mpsc_queue_impl.h lines 185-189). -/
def CancelReservation (q : Ring) : Ring :=
  { q with writeLength := dec32 q.writeLength }

/-- Enqueue (mpsc_queue_impl.h lines 191-199): Reserve then EnqueueAt. -/
def Enqueue (q : Ring) (item : Nat) : Bool × Ring :=
  if (Reserve q).1 then (true, EnqueueAt (Reserve q).2 item)
  else (false, (Reserve q).2)

/-- DoDequeue (mpsc_queue_impl.h lines 220-233): read the payload, advance and
wrap the consumer tail, and increment the woken (high) half of the
write_waiters word of the slot just emptied. -/
def DoDequeue (q : Ring) (idx : Nat) : Nat × Ring :=
  let s := q.slots.getD idx Slot.init
  let s1 : Slot := { s with wokenCounter := (s.wokenCounter + 1) % 2 ^ 16 }
  (s.value,
   { q with slots := q.slots.set idx s1,
            tailIndex := (q.tailIndex + 1) &&& q.wrappingMask })

/-- DequeueNext (mpsc_queue_impl.h lines 201-218): CompareExchange the tail
slot valid word from 1 to 0; on failure report empty; on success DoDequeue and
Decrement write_length. -/
def DequeueNext (q : Ring) : Option Nat × Ring :=
  let idx := q.tailIndex
  let s := q.slots.getD idx Slot.init
  if s.valid = 1 then
    let q1 : Ring := { q with slots := q.slots.set idx { s with valid := 0 } }
    let r := DoDequeue q1 idx
    (some r.1, { r.2 with writeLength := dec32 r.2.writeLength })
  else
    (none, q)

/-- Sequentially Enqueue each item of a list, collecting the results. -/
def enqueueSeq (q : Ring) (items : List Nat) : List Bool × Ring :=
  match items with
  | [] => ([], q)
  | it :: rest =>
    let r := Enqueue q it
    let rs := enqueueSeq r.2 rest
    (r.1 :: rs.1, rs.2)

/-- Sequentially DequeueNext `n` times, collecting the results. -/
def dequeueSeq (q : Ring) (n : Nat) : List (Option Nat) × Ring :=
  match n with
  | 0 => ([], q)
  | n + 1 =>
    let r := DequeueNext q
    let rs := dequeueSeq r.2 n
    (r.1 :: rs.1, rs.2)

/-! ## Queue broadcast enqueue (queue_impl.h lines 209-257) -/

/-- The reservation loop of Queue::Enqueue over the cached live subqueues in
index order: Reserve each; when one fails, CancelReservation every ring
reserved so far (the scratch list writable_subqueues_) and report failure. -/
def reservePhase : List Ring → Bool × List Ring
  | [] => (true, [])
  | r :: rs =>
    if (Reserve r).1 then
      if (reservePhase rs).1 then
        (true, (Reserve r).2 :: (reservePhase rs).2)
      else
        (false, CancelReservation (Reserve r).2 :: (reservePhase rs).2)
    else
      (false, (Reserve r).2 :: rs)

/-- Queue::Enqueue on the local cache of live subqueues (the non-null entries
of subqueues_ in index order; IncorporateNewSubqueues has already run and
last_num_subqueues_ equals the length of the cache, which the code asserts).
With an empty cache it returns false without touching anything; otherwise it
reserves everywhere and only commits (EnqueueAt on every ring) if every
reservation succeeded. -/
def queueEnqueue (rings : List Ring) (item : Nat) : Bool × List Ring :=
  if rings.length = 0 then (false, rings)
  else
    if (reservePhase rings).1 then
      (true, (reservePhase rings).2.map (fun r => EnqueueAt r item))
    else
      (false, (reservePhase rings).2)

/-! ## The Pool allocator (lib/ipc/pool.cc) -/

/-- Allocation block size (constants.h). -/
def kBlockSize : Nat := 128

/-- INT_MAX, the initial value of smallest_size in Pool::Allocate. -/
def intMax : Nat := 2 ^ 31 - 1

/-- Bit of block `j` in the allocation bitmap (byte list `ba`):
`block_allocation_[j >> 3] & (1 << (j % 8))`, read as a Bool.  Bytes outside
the list read as 0. -/
def blockBit (ba : List Nat) (j : Nat) : Bool :=
  decide ((ba.getD (j >>> 3) 0) &&& 2 ^ (j % 8) ≠ 0)

/-- OR a mask into the bitmap byte at a (possibly negative, since the C++
index is an int) byte index; an out-of-bitmap index leaves the modelled
bitmap unchanged (the C++ write then lands outside the bitmap array). -/
def byteOr (ba : List Nat) (i : Int) (m : Nat) : List Nat :=
  if 0 ≤ i then ba.set i.toNat (ba.getD i.toNat 0 ||| m) else ba

/-- AND a mask into the bitmap byte at a byte index, as byteOr. -/
def byteAnd (ba : List Nat) (i : Int) (m : Nat) : List Nat :=
  if 0 ≤ i then ba.set i.toNat (ba.getD i.toNat 0 &&& m) else ba

/-- memset of `count` bitmap bytes starting at `start`. -/
def fillBytes (ba : List Nat) (start count fill : Nat) : List Nat :=
  match count with
  | 0 => ba
  | c + 1 => fillBytes (ba.set start fill) (start + 1) c fill

/-- SetSegment (pool.cc lines 331-365).  The start mask is adapted to
`~(start_mask - 1)` in uint8 (which is `256 - m` for a one-hot mask m and 0
for mask 0: every bit at or above the start bit) and the end mask to
`(end_mask << 1) - 1` in uint8 (every bit at or below the end bit); when the
start and end byte coincide the two adapted masks are intersected and both
writes use the intersection.  The first and last bytes are set or cleared
through the masks; when at least one whole byte lies strictly between, those
bytes are filled with 0xFF or 0x00. -/
def SetSegment (ba : List Nat) (startIndex : Int) (startMask : Nat)
    (endIndex : Int) (endMask : Nat) (value : Nat) : List Nat :=
  let sm := (256 - startMask) % 256
  let em := ((endMask <<< 1) % 256 + 255) % 256
  let p := if startIndex = endIndex then (em &&& sm, em &&& sm) else (sm, em)
  let ba1 :=
    if value ≠ 0 then byteOr (byteOr ba startIndex p.1) endIndex p.2
    else byteAnd (byteAnd ba startIndex (255 ^^^ p.1)) endIndex (255 ^^^ p.2)
  if endIndex - startIndex < 2 then ba1
  else if 0 ≤ startIndex + 1 then
    fillBytes ba1 (startIndex + 1).toNat (endIndex - startIndex - 1).toNat
      (if value ≠ 0 then 255 else 0)
  else ba1

/-- DefineSegment (pool.cc lines 29-38).  The C++ int divisions truncate
toward zero (Int.tdiv / Int.tmod); `start_block >> 3` is an arithmetic shift,
i.e. floor division by 8.  The mask `1 << (block % 8)` is only meaningful for
a nonnegative block number (the shift is undefined otherwise); the model maps
a negative remainder to mask 0.  Returns (start_index, start_mask, end_index,
end_mask). -/
def DefineSegment (offset : Int) (size : Nat) : Int × Nat × Int × Nat :=
  let startBlock := Int.tdiv offset kBlockSize
  let endBlock := Int.tdiv (offset + size - 1) kBlockSize
  (Int.fdiv startBlock 8,
   if 0 ≤ Int.tmod startBlock 8 then 2 ^ (Int.tmod startBlock 8).toNat else 0,
   Int.fdiv endBlock 8,
   if 0 ≤ Int.tmod endBlock 8 then 2 ^ (Int.tmod endBlock 8).toNat else 0)

/-- Pool::Free (pool.cc lines 282-296): clear the covered block bits.  The
offset is GetOffset(block), an int that can be negative when Allocate has
handed out its sentinel segment. -/
def Free (ba : List Nat) (offset : Int) (size : Nat) : List Nat :=
  let seg := DefineSegment offset size
  SetSegment ba seg.1 seg.2.1 seg.2.2.1 seg.2.2.2 0

/-- The local struct Segment of Pool::Allocate, with its initializer
`{0, 0, -1, -1, -1}`. -/
structure PoolSegment where
  startMask : Nat
  endMask : Nat
  startIndex : Int
  endIndex : Int
  startByte : Int
deriving DecidableEq

/-- The sentinel value of the segment variables before any save. -/
def PoolSegment.initial : PoolSegment := ⟨0, 0, -1, -1, -1⟩

/-- The loop state of the best-fit scan in Pool::Allocate: the locals
in_free_segment, set_segment, segment_size, smallest_size, start_mask,
start_mask_shifts, start_index, segment and smallest_segment. -/
structure AllocState where
  inFreeSegment : Bool
  setSegment : Bool
  segmentSize : Nat
  smallestSize : Nat
  startMask : Nat
  startMaskShifts : Nat
  startIndex : Int
  segment : PoolSegment
  smallestSegment : PoolSegment
deriving DecidableEq

/-- The scan state at entry of Pool::Allocate. -/
def AllocState.initial : AllocState :=
  ⟨false, false, 0, intMax, 0, 0, -1, PoolSegment.initial, PoolSegment.initial⟩

/-- One iteration of the nested scan loops of Pool::Allocate for global bit
position `j` (byte `j >> 3`, mask `1 << (j % 8)`), in source order: first the
end-of-free-segment bookkeeping (note that the comparison with smallest_size
runs for EVERY closing free segment, whether or not a candidate segment was
saved for it), then the start-or-extend-free-segment bookkeeping, then the
candidate save once the current segment size first reaches the request. -/
def allocStep (ba : List Nat) (size : Nat) (st : AllocState) (j : Nat) : AllocState :=
  let st :=
    if blockBit ba j && st.inFreeSegment then
      let st := { st with inFreeSegment := false }
      if st.segmentSize ≠ 0 then
        let st :=
          if st.segmentSize < st.smallestSize then
            { st with smallestSize := st.segmentSize, smallestSegment := st.segment }
          else st
        { st with segmentSize := 0, setSegment := false }
      else st
    else st
  let st :=
    if !(blockBit ba j) then
      let st :=
        if !st.inFreeSegment then
          { st with inFreeSegment := true, startMask := 2 ^ (j % 8),
                    startIndex := ((j >>> 3 : Nat) : Int), startMaskShifts := j % 8 }
        else st
      { st with segmentSize := st.segmentSize + 1 }
    else st
  if !st.setSegment && decide (size ≤ st.segmentSize) then
    { st with
        segment := ⟨st.startMask, 2 ^ (j % 8), st.startIndex, ((j >>> 3 : Nat) : Int),
                    (st.startIndex * 8 + st.startMaskShifts) * kBlockSize⟩,
        setSegment := true }
  else st

/-- Pool::Allocate (pool.cc lines 113-222) on a bitmap of
ceil(numBlocks / 8) bytes covering numBlocks blocks; with that byte count the
byte/mask loops together with the saw_blocks cutoff visit exactly the bits
0 .. numBlocks - 1 in order, so the scan is a fold of allocStep over
List.range numBlocks.  After the loop a still-open free segment is compared
too; if smallest_size moved off INT_MAX the chosen segment is marked via
SetSegment and the byte offset of the returned pointer data_ + start_byte is
handed back (an int: the sentinel segment makes it -1). -/
def Allocate (ba : List Nat) (numBlocks bytes : Nat) : Option (Int × List Nat) :=
  let size := bytes / kBlockSize + (if bytes % kBlockSize ≠ 0 then 1 else 0)
  let st := (List.range numBlocks).foldl (allocStep ba size) AllocState.initial
  let st :=
    if st.setSegment && decide (st.segmentSize < st.smallestSize) then
      { st with smallestSegment := st.segment, smallestSize := st.segmentSize }
    else st
  if st.smallestSize ≠ intMax then
    some (st.smallestSegment.startByte,
      SetSegment ba st.smallestSegment.startIndex st.smallestSegment.startMask
        st.smallestSegment.endIndex st.smallestSegment.endMask 1)
  else none

/-- The 64-bit middle loop of AllocateAt (`while (checking_index < end_bound)`):
each pass reads the 8 bytes at `block_allocation_ + start_index +
checking_index` (the doubled start_index is what the source computes) and
conflicts when any is nonzero; otherwise checking_index advances by 8.  Fuel
bounds the iterations; it is chosen large enough at the call site.  Returns
the conflict flag and the final checking_index. -/
def allocateAtMiddle64 (ba : List Nat) (startIndex endBound : Nat) :
    Nat → Nat → Bool × Nat
  | checking, 0 => (false, checking)
  | checking, fuel + 1 =>
    if checking < endBound then
      if (List.range 8).any (fun j => ba.getD (startIndex + checking + j) 0 != 0) then
        (true, checking)
      else allocateAtMiddle64 ba startIndex endBound (checking + 8) fuel
    else (false, checking)

/-- The byte-at-a-time remainder loop of AllocateAt
(`while (checking_index < end_index)`). -/
def allocateAtBytes (ba : List Nat) (endIndex : Nat) : Nat → Nat → Bool
  | _, 0 => false
  | checking, fuel + 1 =>
    if checking < endIndex then
      if ba.getD checking 0 != 0 then true
      else allocateAtBytes ba endIndex (checking + 1) fuel
    else false

/-- Pool::AllocateAt (pool.cc lines 224-280) for an in-contract span
(start_byte nonnegative and start_byte + size within the pool, as the entry
assert requires).  The start byte of the bitmap is checked against
`~(start_mask - 1)` (every bit at or above the start bit), the end byte
against `(end_mask << 1) - 1` (every bit at or below the end bit), the middle
first 64 bits at a time and then byte by byte; any hit returns none with the
bitmap untouched.  Otherwise the covered blocks are marked via SetSegment and
the offset of the returned pointer data_ + start_byte is handed back. -/
def AllocateAt (ba : List Nat) (startByte size : Nat) : Option (Nat × List Nat) :=
  let seg := DefineSegment (startByte : Int) size
  let siN := seg.1.toNat
  let eiN := seg.2.2.1.toNat
  let startFreeMask := (256 - seg.2.1) % 256
  let endFreeMask := ((seg.2.2.2 <<< 1) % 256 + 255) % 256
  if ba.getD siN 0 &&& startFreeMask ≠ 0 then none
  else if ba.getD eiN 0 &&& endFreeMask ≠ 0 then none
  else
    let endBound := eiN - eiN % 8
    let mid := allocateAtMiddle64 ba siN endBound (siN + 1) (eiN + 9)
    if mid.1 then none
    else if allocateAtBytes ba eiN mid.2 (eiN + 1) then none
    else some (startByte, SetSegment ba seg.1 seg.2.1 seg.2.2.1 seg.2.2.2 1)

/-- First block covered by the byte span [startByte, startByte + size). -/
def coveredStart (startByte : Nat) : Nat := startByte / kBlockSize

/-- Last block covered by the byte span [startByte, startByte + size). -/
def coveredEnd (startByte size : Nat) : Nat := (startByte + size - 1) / kBlockSize

/-- First block position the AllocateAt conflict check actually tests: the
whole start byte group is tested from the start bit up, and when start and end
fall into the same bitmap byte the end check additionally tests the bits below
the start bit, so the tested range then starts at the byte boundary. -/
def allocateAtCheckLo (startByte size : Nat) : Nat :=
  if coveredStart startByte >>> 3 = coveredEnd startByte size >>> 3 then
    8 * (coveredStart startByte >>> 3)
  else coveredStart startByte

/-- Last block position the AllocateAt conflict check actually tests. -/
def allocateAtCheckHi (startByte size : Nat) : Nat :=
  if coveredStart startByte >>> 3 = coveredEnd startByte size >>> 3 then
    8 * (coveredStart startByte >>> 3) + 7
  else coveredEnd startByte size

/-! ## Concrete instances used as inputs of witnesses and counterexamples -/

/-- A concrete byte memory for exercising VolatileCopy: address a holds
(a + 1) % 256. -/
def volatileCopyTestMem : Nat → Nat := fun a => (a + 1) % 256

/-- A capacity-1 ring that already holds one element (write_length 1), so that
Reserve on it fails. -/
def fullRing1 : Ring := { ringCreate 1 with writeLength := 1 }

/-! # Theorems -/

/-- C2 (code bug): after the 64-bit chunk loop of VolatileCopy, the trailing
byte loop restarts from the ORIGINAL dest and src pointers instead of the
advanced ones, so for 4-byte-aligned pointers and a length of at least 8 that
is not a multiple of 8 the last length % 8 destination bytes are never
written.  Concretely, copying 12 bytes from address 0 to address 16 leaves
dest byte 8 (address 24) at its old value 25 instead of the source byte 9. -/
theorem volatileCopy_drops_tail_when_aligned :
    VolatileCopy volatileCopyTestMem 16 0 12 24 = 25 ∧
    volatileCopyTestMem 8 = 9 ∧
    VolatileCopy volatileCopyTestMem 16 0 12 24 ≠ volatileCopyTestMem 8 := by
  decide

/-- C3: on a freshly created ring of capacity 64, 64 successive Enqueue calls
with items 0..63 all return true, the 65th returns false, 64 DequeueNext calls
yield exactly 0, 1, ..., 63 in order, and the 65th returns false (none). -/
theorem ring_capacity64_scenario :
    (enqueueSeq (ringCreate 64) (List.range 65)).1
      = List.replicate 64 true ++ [false] ∧
    (dequeueSeq (enqueueSeq (ringCreate 64) (List.range 65)).2 65).1
      = (List.range 64).map some ++ [none] := by
  decide

/-- C7 (code bug): DoWriteBlocking computes its `inverted` flag as
`(ww & (1 << 15)) != (ww & (1 << 31))`, a comparison of two differently
positioned masks that is true whenever EITHER epoch bit is set, not when the
two epoch bits differ.  At write_waiters = 0x80008000 both epoch bits are set
(equal), the woken counter W = 0 is below the ticket T = 5, so by the
specification the producer must keep waiting under normal ordering — but the
code takes the inverted branch and proceeds immediately. -/
theorem doWriteBlocking_epoch_or_bug :
    epochLow 0x80008000 = epochHigh 0x80008000 ∧
    (0x80008000 >>> 16) % 2 ^ 15 < 5 % 2 ^ 15 ∧
    doWriteBlockingWaits 0x80008000 5 = false ∧
    specWaitCondition 0x80008000 5 = true := by
  decide

/-- C9 (code bug): the overflow link a bucket stores in pool memory is the raw
local pointer `new_bucket` of the writing process (Bucket *next), not a pool
offset.  With the writer mapping the pool data area at base 4096 and a second
process at base 8192, the stored link for an overflow bucket at pool offset
256 is the address 4352, while the second process has its copy of that bucket
at address 8448 — following the chain dereferences the wrong address. -/
theorem bucket_next_stores_raw_pointer :
    addOrSetStoredNext 4096 256 = 4352 ∧
    chainFollowAddress (addOrSetStoredNext 4096 256) ≠ poolAddress 8192 256 := by
  decide

/-- C4 (code bug): on the bitmap 0b00000010 (block 1 occupied, blocks 0 and
2..7 free) a request for 256 bytes (2 blocks) should, per the best-fit
contract, return block 2 (offset 256) and mark blocks 2 and 3.  But when the
1-block free run ending at block 1 closes, Allocate compares its size against
smallest_size even though no candidate segment was ever saved for it, records
smallest_size = 1 with the sentinel segment {0,0,-1,-1,-1}, and no later
(adequate) run can beat size 1 — so Allocate returns the sentinel offset -1
(the pointer data_ - 1) and marks nothing. -/
theorem allocate_best_fit_sentinel_bug :
    Allocate [2] 8 256 = some (-1, [2]) ∧
    blockBit [2] 2 = false ∧ blockBit [2] 3 = false := by
  decide

/-- C6 (code bug): the Allocate/Free round trip does not restore the bitmap
for every bitmap state.  On the bitmap 0b00000010 a 256-byte Allocate
"succeeds" with the sentinel offset -1 (see the C4 theorem) without marking
anything; the subsequent Free of that pointer with the same size computes the
block range [(-1)/128, 254/128] = [0, 1] and clears those bits, wiping out
block 1 which was occupied before the Allocate: the bitmap ends as 0b00000000
instead of 0b00000010. -/
theorem allocate_free_roundtrip_bug :
    Allocate [2] 8 256 = some (-1, [2]) ∧
    Free [2] (-1) 256 = [0] ∧
    ([0] : List Nat) ≠ [2] := by
  decide

/-- C8 (counterexample): the claimed-but-unreferenced descriptor state
dead = 0, valid = 0, num_references = 0 is reached by the very first atomic
write of MakeOwnSubqueue (the CAS dead: 1 -> 0 on a FREE descriptor, before
num_references is set to 1), and it is neither FREE nor LIVE nor DYING. -/
theorem descriptor_transient_state_reachable :
    DescReachable ⟨0, 0, 0⟩ ∧ threeState ⟨0, 0, 0⟩ = false :=
  ⟨DescReachable.step DescReachable.init DescStep.claimDead, by decide⟩

/-- C8 (amended): at every instant during any sequence of the descriptor
operations, every descriptor is in one of FOUR states — FREE, LIVE, DYING, or
the transient claimed-but-unreferenced state (dead = 0, valid = 0,
num_references = 0) that occurs inside MakeOwnSubqueue between the dead-CAS
and the first reference store, and inside RemoveSubqueue between the final
reference drop and the dead store. -/
theorem descriptor_four_state_invariant (d : Subqueue) (h : DescReachable d) :
    fourState d = true := by
  induction h with
  | init => decide
  | step _ hstep ih =>
    cases hstep with
    | claimDead => decide
    | initRefs => decide
    | publish => decide
    | markDead => decide
    | lastDrop => decide
    | addRef v r hr =>
      simp [fourState, threeState, descFREE, descLIVE, descDYING] at ih ⊢
      omega
    | invalidate r =>
      simp [fourState, threeState, descFREE, descLIVE, descDYING] at ih ⊢
      omega
    | dropRef v r hr =>
      simp [fourState, threeState, descFREE, descLIVE, descDYING] at ih ⊢
      omega

/-- Witness for the C8 invariant at the transient state itself. -/
theorem descriptor_four_state_invariant_witness :
    fourState ⟨0, 0, 0⟩ = true :=
  descriptor_four_state_invariant ⟨0, 0, 0⟩
    (DescReachable.step DescReachable.init DescStep.claimDead)

/-- Decrementing a 32-bit word right after incrementing it restores it, as
long as the original value was representable. -/
theorem dec32_inc32 (x : Nat) (h : x < 2 ^ 32) : dec32 (inc32 x) = x := by
  unfold inc32 dec32
  rw [Nat.mod_add_mod]
  have hx : x + 1 + (2 ^ 32 - 1) = x + 2 ^ 32 := by omega
  rw [hx, Nat.add_mod_right, Nat.mod_eq_of_lt h]

/-- A failed Reserve leaves the ring exactly as it was (the increment is
undone by the decrement). -/
theorem reserve_fail_ring (q : Ring) (h : q.writeLength < 2 ^ 32)
    (hf : (Reserve q).1 = false) : (Reserve q).2 = q := by
  unfold Reserve at *
  by_cases hc : q.writeLength ≥ q.arrayLength
  · simp only [hc, if_true, ge_iff_le]
    simp only [ge_iff_le, hc] at hf ⊢
    show ({ q with writeLength := dec32 (inc32 q.writeLength) } : Ring) = q
    rw [dec32_inc32 q.writeLength h]
  · simp [hc] at hf

/-- CancelReservation right after a successful Reserve restores the ring
exactly. -/
theorem cancel_reserve_ring (q : Ring) (h : q.writeLength < 2 ^ 32)
    (hs : (Reserve q).1 = true) : CancelReservation (Reserve q).2 = q := by
  unfold Reserve at *
  by_cases hc : q.writeLength ≥ q.arrayLength
  · simp [hc] at hs
  · simp only [hc, if_false, ge_iff_le]
    simp only [ge_iff_le, hc] at hs ⊢
    show CancelReservation { q with writeLength := inc32 q.writeLength } = q
    unfold CancelReservation
    show ({ q with writeLength := dec32 (inc32 q.writeLength) } : Ring) = q
    rw [dec32_inc32 q.writeLength h]

/-- The reservation loop either succeeds on every ring (and the resulting
rings are exactly the reserved ones, in order), or some Reserve failed and
every ring is back in its original state. -/
theorem reservePhase_spec (rs : List Ring)
    (hwl : ∀ r ∈ rs, r.writeLength < 2 ^ 32) :
    ((∀ r ∈ rs, (Reserve r).1 = true) ∧
      reservePhase rs = (true, rs.map fun r => (Reserve r).2)) ∨
    ((∃ r ∈ rs, (Reserve r).1 = false) ∧ reservePhase rs = (false, rs)) := by
  induction rs with
  | nil =>
    left
    exact ⟨fun r hr => absurd hr (List.not_mem_nil r), rfl⟩
  | cons r rs ih =>
    have hwlr : r.writeLength < 2 ^ 32 := hwl r (List.mem_cons_self r rs)
    have hwls : ∀ x ∈ rs, x.writeLength < 2 ^ 32 :=
      fun x hx => hwl x (List.mem_cons_of_mem r hx)
    by_cases hr : (Reserve r).1 = true
    · rcases ih hwls with ⟨hall, heq⟩ | ⟨hex, heq⟩
      · left
        constructor
        · intro x hx
          rcases List.mem_cons.mp hx with hxr | hxs
          · rw [hxr]; exact hr
          · exact hall x hxs
        · simp [reservePhase, hr, heq]
      · right
        constructor
        · rcases hex with ⟨x, hx, hxf⟩
          exact ⟨x, List.mem_cons_of_mem r hx, hxf⟩
        · have h1 : (reservePhase rs).1 = false := by rw [heq]
          have h2 : (reservePhase rs).2 = rs := by rw [heq]
          simp [reservePhase, hr, h1, h2, cancel_reserve_ring r hwlr hr]
    · have hrf : (Reserve r).1 = false := by
        cases hb : (Reserve r).1
        · rfl
        · exact absurd hb hr
      right
      constructor
      · exact ⟨r, List.mem_cons_self r rs, hrf⟩
      · simp [reservePhase, hrf, reserve_fail_ring r hwlr hrf]

/-- C1: on a handle whose cache holds at least one live subqueue, a broadcast
Enqueue is all-or-nothing — either Reserve succeeds on every cached ring, the
item is committed into each reserved ring, and the call returns true; or some
Reserve fails, every reservation made so far is cancelled, every ring (slots,
write_length, head_index, tail) is exactly as before the call, and the call
returns false. -/
theorem queueEnqueue_all_or_nothing (rings : List Ring) (item : Nat)
    (hne : rings ≠ []) (hwl : ∀ r ∈ rings, r.writeLength < 2 ^ 32) :
    ((∀ r ∈ rings, (Reserve r).1 = true) ∧
      queueEnqueue rings item
        = (true, rings.map fun r => EnqueueAt (Reserve r).2 item)) ∨
    ((∃ r ∈ rings, (Reserve r).1 = false) ∧
      queueEnqueue rings item = (false, rings)) := by
  have hlen : ¬rings.length = 0 := by
    intro h
    exact hne (List.length_eq_zero.mp h)
  rcases reservePhase_spec rings hwl with ⟨hall, heq⟩ | ⟨hex, heq⟩
  · left
    refine ⟨hall, ?_⟩
    have h1 : (reservePhase rings).1 = true := by rw [heq]
    have h2 : (reservePhase rings).2 = rings.map fun r => (Reserve r).2 := by rw [heq]
    simp [queueEnqueue, hlen, h1, h2, List.map_map, Function.comp]
  · right
    refine ⟨hex, ?_⟩
    have h1 : (reservePhase rings).1 = false := by rw [heq]
    have h2 : (reservePhase rings).2 = rings := by rw [heq]
    simp [queueEnqueue, hlen, h1, h2]

/-- Witness for C1 at a concrete input: a single full capacity-1 ring, where
the broadcast fails and the ring is returned untouched. -/
theorem queueEnqueue_all_or_nothing_witness :
    ((∀ r ∈ [fullRing1], (Reserve r).1 = true) ∧
      queueEnqueue [fullRing1] 7
        = (true, [fullRing1].map fun r => EnqueueAt (Reserve r).2 7)) ∨
    ((∃ r ∈ [fullRing1], (Reserve r).1 = false) ∧
      queueEnqueue [fullRing1] 7 = (false, [fullRing1])) :=
  queueEnqueue_all_or_nothing [fullRing1] 7 (by decide) (by decide)

/-- On a power of two, the IntLog2 loop ends with input reduced to 1 and the
log advanced by the exponent. -/
theorem intLog2Go_pow (s : Nat) :
    ∀ fuel log, s < fuel → IntLog2Go fuel (2 ^ s) log = (1, log + s) := by
  induction s with
  | zero =>
    intro fuel log hf
    match fuel with
    | 0 => omega
    | f + 1 => simp [IntLog2Go]
  | succ s ih =>
    intro fuel log hf
    match fuel with
    | 0 => omega
    | f + 1 =>
      have h2 : ¬(2 ^ (s + 1) % 2 = 1) := by
        rw [Nat.pow_succ, Nat.mul_mod_left]
        omega
      have hdiv : 2 ^ (s + 1) / 2 = 2 ^ s := by
        rw [Nat.pow_succ]
        exact Nat.mul_div_cancel _ (by omega)
      simp only [IntLog2Go, h2, if_false]
      rw [hdiv, ih f (log + 1) (by omega)]
      simp only [Prod.mk.injEq]
      exact ⟨trivial, by omega⟩

/-- If the IntLog2 loop ends at 1 then the input was exactly two to the power
of the distance the log advanced. -/
theorem intLog2Go_eq_one (fuel : Nat) :
    ∀ input log, (IntLog2Go fuel input log).1 = 1 →
      input = 2 ^ ((IntLog2Go fuel input log).2 - log) ∧
        log ≤ (IntLog2Go fuel input log).2 := by
  induction fuel with
  | zero =>
    intro input log h
    simp only [IntLog2Go] at h ⊢
    exact ⟨by simp [h], le_refl _⟩
  | succ f ih =>
    intro input log h
    by_cases hi : input % 2 = 1
    · simp only [IntLog2Go, hi, if_true] at h ⊢
      exact ⟨by simp [h], le_refl _⟩
    · simp only [IntLog2Go, hi, if_false] at h ⊢
      rcases ih (input / 2) (log + 1) h with ⟨heq, hle⟩
      generalize hM : (IntLog2Go f (input / 2) (log + 1)).2 = M at heq hle ⊢
      refine ⟨?_, by omega⟩
      have h2 : input = 2 * (input / 2) := by omega
      rw [h2, heq, ← Nat.pow_succ']
      congr 1
      omega

/-- C10: for every power of two capacity 2^s with s at most 31 (capacity 1
included), IntLog2 reports a power of two and returns exactly the shift s; the
wrapping mask computed by InitCommon equals capacity - 1, so every masked head
or tail index lies below the capacity.  Conversely IntLog2 reports true only
on powers of two (its shift output then recovers the input exactly), and it
reports false on 0. -/
theorem intLog2_mask_correct (s : Nat) (hs : s ≤ 31) :
    IntLog2 (2 ^ s) = (true, s) ∧
    wrappingMask s = 2 ^ s - 1 ∧
    (∀ x : Nat, x &&& wrappingMask s < 2 ^ s) ∧
    (∀ n : Nat, (IntLog2 n).1 = true → n = 2 ^ (IntLog2 n).2) ∧
    (IntLog2 0).1 = false := by
  have hmask : wrappingMask s = 2 ^ s - 1 := by
    unfold wrappingMask
    by_cases h0 : s = 0
    · simp [h0]
    · simp only [h0, if_false]
      apply Nat.eq_of_testBit_eq
      intro i
      rw [Nat.testBit_shiftRight, Nat.testBit_two_pow_sub_one,
        Nat.testBit_two_pow_sub_one]
      have : 32 - s + i < 32 ↔ i < s := by omega
      simp [this]
  refine ⟨?_, hmask, ?_, ?_, by decide⟩
  · unfold IntLog2
    rw [intLog2Go_pow s 32 0 (by omega)]
    simp
  · intro x
    rw [hmask]
    exact Nat.and_lt_two_pow x (Nat.sub_lt (Nat.pos_pow_of_pos s (by omega)) (by omega))
  · intro n h
    unfold IntLog2 at h ⊢
    simp only [beq_iff_eq] at h
    have hgo := intLog2Go_eq_one 32 n 0 h
    simpa using hgo.1

/-- Witness for C10 at the default capacity 64 = 2^6. -/
theorem intLog2_mask_correct_witness :
    IntLog2 (2 ^ 6) = (true, 6) ∧
    wrappingMask 6 = 2 ^ 6 - 1 ∧
    (∀ x : Nat, x &&& wrappingMask 6 < 2 ^ 6) ∧
    (∀ n : Nat, (IntLog2 n).1 = true → n = 2 ^ (IntLog2 n).2) ∧
    (IntLog2 0).1 = false :=
  intLog2_mask_correct 6 (by decide)

/-- getD after a list update: the new value where the update landed in range,
the old value everywhere else. -/
theorem getD_set_nat (l : List Nat) (i j v : Nat) :
    (l.set i v).getD j 0 = if i = j ∧ i < l.length then v else l.getD j 0 := by
  rw [List.getD_eq_getElem?_getD, List.getElem?_set]
  by_cases h1 : i = j
  · subst h1
    by_cases h2 : i < l.length
    · rw [if_pos rfl, if_pos h2, if_pos ⟨rfl, h2⟩]
      rfl
    · rw [if_pos rfl, if_neg h2, if_neg (fun h => h2 h.2)]
      rw [List.getD_eq_getElem?_getD, List.getElem?_eq_none (by omega)]
  · rw [if_neg h1, if_neg (fun h => h1 h.1), List.getD_eq_getElem?_getD]

/-- getD after byteOr at a natural byte index. -/
theorem getD_byteOr (ba : List Nat) (iN m j : Nat) :
    (byteOr ba (iN : Int) m).getD j 0 =
      if iN = j ∧ iN < ba.length then ba.getD iN 0 ||| m else ba.getD j 0 := by
  unfold byteOr
  rw [if_pos (Int.natCast_nonneg iN), Int.toNat_natCast]
  exact getD_set_nat ba iN j _

/-- getD after byteAnd at a natural byte index. -/
theorem getD_byteAnd (ba : List Nat) (iN m j : Nat) :
    (byteAnd ba (iN : Int) m).getD j 0 =
      if iN = j ∧ iN < ba.length then ba.getD iN 0 &&& m else ba.getD j 0 := by
  unfold byteAnd
  rw [if_pos (Int.natCast_nonneg iN), Int.toNat_natCast]
  exact getD_set_nat ba iN j _

/-- byteOr does not change the bitmap length. -/
theorem length_byteOr (ba : List Nat) (i : Int) (m : Nat) :
    (byteOr ba i m).length = ba.length := by
  unfold byteOr
  by_cases h : 0 ≤ i <;> simp [h]

/-- byteAnd does not change the bitmap length. -/
theorem length_byteAnd (ba : List Nat) (i : Int) (m : Nat) :
    (byteAnd ba i m).length = ba.length := by
  unfold byteAnd
  by_cases h : 0 ≤ i <;> simp [h]

/-- fillBytes does not change the bitmap length. -/
theorem length_fillBytes (cnt : Nat) :
    ∀ (ba : List Nat) (start fill : Nat),
      (fillBytes ba start cnt fill).length = ba.length := by
  induction cnt with
  | zero => intro ba start fill; rfl
  | succ c ih =>
    intro ba start fill
    show (fillBytes (ba.set start fill) (start + 1) c fill).length = ba.length
    rw [ih, List.length_set]

/-- getD after the middle memset: the fill value on the in-range stretch, the
old value everywhere else. -/
theorem getD_fillBytes (cnt : Nat) :
    ∀ (ba : List Nat) (start fill j : Nat),
      (fillBytes ba start cnt fill).getD j 0 =
        if start ≤ j ∧ j < start + cnt ∧ j < ba.length then fill
        else ba.getD j 0 := by
  induction cnt with
  | zero =>
    intro ba start fill j
    show ba.getD j 0 = _
    rw [if_neg (by omega)]
  | succ c ih =>
    intro ba start fill j
    show (fillBytes (ba.set start fill) (start + 1) c fill).getD j 0 = _
    rw [ih, List.length_set, getD_set_nat]
    by_cases h1 : start + 1 ≤ j ∧ j < start + 1 + c ∧ j < ba.length
    · rw [if_pos h1, if_pos (by omega)]
    · rw [if_neg h1]
      by_cases h2 : start = j ∧ start < ba.length
      · rw [if_pos h2, if_pos (by omega)]
      · rw [if_neg h2, if_neg (by omega)]

/-- The bit of block j, restated through Nat.testBit. -/
theorem blockBit_eq_testBit (ba : List Nat) (j : Nat) :
    blockBit ba j = (ba.getD (j >>> 3) 0).testBit (j % 8) := by
  unfold blockBit
  rw [Nat.and_two_pow]
  have hp : 2 ^ (j % 8) ≠ 0 := (Nat.pos_pow_of_pos (j % 8) (by omega)).ne'
  cases h : (ba.getD (j >>> 3) 0).testBit (j % 8) <;> simp [h, hp]

/-- Bits of the adapted start mask `~(start_mask - 1)` in uint8: every bit at
or above the start bit. -/
theorem testBit_startAdapted :
    ∀ s, s < 8 → ∀ k, k < 8 → (256 - 2 ^ s).testBit k = decide (s ≤ k) := by
  decide

/-- Bits of the adapted end mask `(end_mask << 1) - 1` in uint8: every bit at
or below the end bit. -/
theorem testBit_endAdapted (e k : Nat) :
    (2 ^ (e + 1) - 1).testBit k = decide (k ≤ e) := by
  rw [Nat.testBit_two_pow_sub_one]
  simp [Nat.lt_succ_iff]

/-- The uint8 computation `(end_mask << 1) - 1` for a one-hot end mask, with
the wrap of bit 7 through zero included, equals two to the successor power
minus one. -/
theorem endAdapted_eq (e : Nat) (he : e < 8) :
    ((2 ^ e <<< 1) % 256 + 255) % 256 = 2 ^ (e + 1) - 1 := by
  interval_cases e <;> decide

/-- The uint8 computation `~(start_mask - 1)` for a one-hot start mask. -/
theorem startAdapted_eq (s : Nat) (hs : s < 8) :
    (256 - 2 ^ s) % 256 = 256 - 2 ^ s := by
  interval_cases s <;> decide

/-- Marking a block range with SetSegment (value 1) sets exactly the bits of
the blocks from sb to eb and leaves every other bit alone, when the call is
made the way Allocate, AllocateAt and Free make it: byte indices sb >> 3 and
eb >> 3, one-hot masks 1 << (sb % 8) and 1 << (eb % 8). -/
theorem blockBit_SetSegment_one (ba : List Nat) (sb eb : Nat)
    (hle : sb ≤ eb) (hlen : eb >>> 3 < ba.length) (j : Nat) :
    blockBit (SetSegment ba ((sb >>> 3 : Nat) : Int) (2 ^ (sb % 8))
        ((eb >>> 3 : Nat) : Int) (2 ^ (eb % 8)) 1) j
      = (decide (sb ≤ j ∧ j ≤ eb) || blockBit ba j) := by
  have hshift : ∀ n : Nat, n >>> 3 = n / 8 := fun n => by
    rw [Nat.shiftRight_eq_div_pow]
  set si := sb >>> 3 with hsi
  set ei := eb >>> 3 with hei
  set s := sb % 8 with hsv
  set e := eb % 8 with hev
  set i := j >>> 3 with hiv
  set k := j % 8 with hkv
  have hs8 : s < 8 := by rw [hsv]; omega
  have he8 : e < 8 := by rw [hev]; omega
  have hk8 : k < 8 := by rw [hkv]; omega
  have hsb : sb = 8 * si + s := by rw [hsi, hsv, hshift]; omega
  have heb : eb = 8 * ei + e := by rw [hei, hev, hshift]; omega
  have hj : j = 8 * i + k := by rw [hiv, hkv, hshift]; omega
  have hsiei : si ≤ ei := by omega
  have hone : ¬(1 : Nat) = 0 := by omega
  have htoN1 : ((si : Int) + 1).toNat = si + 1 := by omega
  have htoN2 : ((ei : Int) - (si : Int) - 1).toNat = ei - si - 1 := by omega
  have hSm : (256 - 2 ^ s).testBit k = decide (s ≤ k) := testBit_startAdapted s hs8 k hk8
  have hEm : (2 ^ (e + 1) - 1).testBit k = decide (k ≤ e) := testBit_endAdapted e k
  simp only [SetSegment, startAdapted_eq s hs8, endAdapted_eq e he8, htoN1, htoN2]
  rw [if_pos hone]
  by_cases hsame : si = ei
  · -- start and end in the same bitmap byte: both writes use the intersected
    -- mask and there is no middle fill
    have hc : ((si : Int) = (ei : Int)) := by omega
    rw [if_pos hc]
    have hfillc : ((ei : Int) - (si : Int) < 2) := by omega
    rw [if_pos hfillc]
    dsimp only
    rw [blockBit_eq_testBit, blockBit_eq_testBit, ← hiv, ← hkv]
    rw [getD_byteOr]
    by_cases hiei : ei = i
    · rw [if_pos ⟨hiei, by rw [length_byteOr]; exact hlen⟩]
      rw [getD_byteOr, if_pos ⟨hsame, by omega⟩]
      rw [← hiei]
      have hbi : (ba.getD si 0) = ba.getD ei 0 := by rw [hsame]
      rw [hbi]
      have hcond : (sb ≤ j ∧ j ≤ eb) ↔ (s ≤ k ∧ k ≤ e) := by omega
      simp only [Nat.testBit_or, Nat.testBit_and, hSm, hEm]
      by_cases h1 : s ≤ k <;> by_cases h2 : k ≤ e <;> simp [hcond, h1, h2]
    · rw [if_neg (fun h => hiei h.1)]
      rw [getD_byteOr, if_neg (fun h => hiei (hsame.symm.trans h.1))]
      have hcond : ¬(sb ≤ j ∧ j ≤ eb) := by omega
      simp [hcond]
  · -- start and end in different bitmap bytes
    have hc : ¬((si : Int) = (ei : Int)) := by omega
    rw [if_neg hc]
    dsimp only
    by_cases hfill : ei < si + 2
    · -- adjacent boundary bytes: no middle fill
      have hfillc : ((ei : Int) - (si : Int) < 2) := by omega
      rw [if_pos hfillc]
      rw [blockBit_eq_testBit, blockBit_eq_testBit, ← hiv, ← hkv]
      rw [getD_byteOr]
      by_cases hiei : ei = i
      · rw [if_pos ⟨hiei, by rw [length_byteOr]; exact hlen⟩]
        rw [getD_byteOr, if_neg (fun h => hsame h.1)]
        rw [← hiei]
        have hcond : (sb ≤ j ∧ j ≤ eb) ↔ (k ≤ e) := by omega
        simp only [Nat.testBit_or, hEm]
        by_cases h2 : k ≤ e <;> simp [hcond, h2]
      · rw [if_neg (fun h => hiei h.1)]
        rw [getD_byteOr]
        by_cases hisi : si = i
        · rw [if_pos ⟨hisi, by omega⟩]
          rw [← hisi]
          have hcond : (sb ≤ j ∧ j ≤ eb) ↔ (s ≤ k) := by omega
          simp only [Nat.testBit_or, hSm]
          by_cases h1 : s ≤ k <;> simp [hcond, h1]
        · rw [if_neg (fun h => hisi h.1)]
          have hcond : ¬(sb ≤ j ∧ j ≤ eb) := by omega
          simp [hcond]
    · -- at least one full byte strictly between the boundary bytes
      have hfillc : ¬((ei : Int) - (si : Int) < 2) := by omega
      rw [if_neg hfillc, if_pos (by omega : (0 : Int) ≤ (si : Int) + 1)]
      rw [blockBit_eq_testBit, blockBit_eq_testBit, ← hiv, ← hkv]
      rw [getD_fillBytes, length_byteOr, length_byteOr]
      by_cases hmid : si + 1 ≤ i ∧ i < si + 1 + (ei - si - 1) ∧ i < ba.length
      · rw [if_pos hmid]
        have h255 : (255 : Nat).testBit k = true := by
          have h2 : (255 : Nat) = 2 ^ 8 - 1 := by norm_num
          rw [h2, Nat.testBit_two_pow_sub_one]
          simpa using hk8
        have hcond : (sb ≤ j ∧ j ≤ eb) := by omega
        simp [h255, hcond]
      · rw [if_neg hmid]
        rw [getD_byteOr]
        by_cases hiei : ei = i
        · rw [if_pos ⟨hiei, by rw [length_byteOr]; exact hlen⟩]
          rw [getD_byteOr, if_neg (fun h => hsame h.1)]
          rw [← hiei]
          have hcond : (sb ≤ j ∧ j ≤ eb) ↔ (k ≤ e) := by omega
          simp only [Nat.testBit_or, hEm]
          by_cases h2 : k ≤ e <;> simp [hcond, h2]
        · rw [if_neg (fun h => hiei h.1)]
          rw [getD_byteOr]
          by_cases hisi : si = i
          · rw [if_pos ⟨hisi, by omega⟩]
            rw [← hisi]
            have hcond : (sb ≤ j ∧ j ≤ eb) ↔ (s ≤ k) := by omega
            simp only [Nat.testBit_or, hSm]
            by_cases h1 : s ≤ k <;> simp [hcond, h1]
          · rw [if_neg (fun h => hisi h.1)]
            have hcond : ¬(sb ≤ j ∧ j ≤ eb) := by omega
            simp [hcond]

/-- A byte masked with an 8-bit mask is nonzero exactly when byte and mask
share a set bit below 8. -/
theorem and_mask_ne_zero (b m : Nat) (hm : m < 256) :
    b &&& m ≠ 0 ↔ ∃ k, k < 8 ∧ b.testBit k = true ∧ m.testBit k = true := by
  constructor
  · intro h
    rcases Nat.ne_zero_implies_bit_true h with ⟨t, ht⟩
    rw [Nat.testBit_and] at ht
    rcases Bool.and_eq_true_iff.mp ht with ⟨hb, hmm⟩
    refine ⟨t, ?_, hb, hmm⟩
    by_contra hge
    have h256 : (256 : Nat) ≤ 2 ^ t := by
      calc (256 : Nat) = 2 ^ 8 := by norm_num
        _ ≤ 2 ^ t := Nat.pow_le_pow_right (by omega) (by omega)
    rw [Nat.testBit_lt_two_pow (lt_of_lt_of_le hm h256)] at hmm
    exact Bool.false_ne_true hmm
  · rintro ⟨k, _, hb, hmm⟩
    intro h0
    have : (b &&& m).testBit k = true := by
      rw [Nat.testBit_and, hb, hmm]
      rfl
    rw [h0, Nat.zero_testBit] at this
    exact Bool.false_ne_true this

/-- An 8-bit byte is nonzero exactly when it has a set bit below 8. -/
theorem byte_ne_zero_iff (b : Nat) (hb : b < 256) :
    b ≠ 0 ↔ ∃ k, k < 8 ∧ b.testBit k = true := by
  constructor
  · intro h
    rcases Nat.ne_zero_implies_bit_true h with ⟨t, ht⟩
    refine ⟨t, ?_, ht⟩
    by_contra hge
    have h256 : (256 : Nat) ≤ 2 ^ t := by
      calc (256 : Nat) = 2 ^ 8 := by norm_num
        _ ≤ 2 ^ t := Nat.pow_le_pow_right (by omega) (by omega)
    rw [Nat.testBit_lt_two_pow (lt_of_lt_of_le hb h256)] at ht
    exact Bool.false_ne_true ht
  · rintro ⟨k, _, hbit⟩
    intro h0
    rw [h0, Nat.zero_testBit] at hbit
    exact Bool.false_ne_true hbit

/-- The byte-at-a-time remainder loop of AllocateAt reports a conflict exactly
when some byte strictly between the current position and the end byte is
nonzero, provided it has enough fuel. -/
theorem allocateAtBytes_spec (ba : List Nat) (endIndex : Nat) :
    ∀ fuel checking, endIndex ≤ checking + fuel →
      (allocateAtBytes ba endIndex checking fuel = true ↔
        ∃ t, checking ≤ t ∧ t < endIndex ∧ ba.getD t 0 ≠ 0) := by
  intro fuel
  induction fuel with
  | zero =>
    intro checking hf
    show (false = true ↔ _)
    constructor
    · intro h
      exact absurd h (by simp)
    · rintro ⟨t, h1, h2, _⟩
      omega
  | succ f ih =>
    intro checking hf
    show ((if checking < endIndex then
        if ba.getD checking 0 != 0 then true
        else allocateAtBytes ba endIndex (checking + 1) f else false) = true ↔ _)
    by_cases h1 : checking < endIndex
    · rw [if_pos h1]
      by_cases h2 : ba.getD checking 0 ≠ 0
      · rw [if_pos (by simpa using h2)]
        simp only [true_iff]
        exact ⟨checking, le_refl _, h1, h2⟩
      · rw [if_neg (by simpa using h2)]
        rw [ih (checking + 1) (by omega)]
        constructor
        · rintro ⟨t, ha, hb, hc⟩
          exact ⟨t, by omega, hb, hc⟩
        · rintro ⟨t, ha, hb, hc⟩
          refine ⟨t, ?_, hb, hc⟩
          rcases Nat.eq_or_lt_of_le ha with he | hlt
          · exact absurd (he ▸ hc) (by simpa using h2)
          · omega
    · rw [if_neg h1]
      constructor
      · intro h
        exact absurd h (by simp)
      · rintro ⟨t, ha, hb, _⟩
        omega

/-- With a zero end bound (the case the amended C5 theorem is about, where the
end byte index is below 8) the 64-bit middle loop exits immediately without
reading anything. -/
theorem allocateAtMiddle64_zero_bound (ba : List Nat) (startIndex checking fuel : Nat)
    (hf : 1 ≤ fuel) :
    allocateAtMiddle64 ba startIndex 0 checking fuel = (false, checking) := by
  match fuel, hf with
  | f + 1, _ =>
    show (if checking < 0 then _ else (false, checking)) = (false, checking)
    rw [if_neg (by omega)]

/-- DefineSegment at a nonnegative offset, computed into Nat arithmetic. -/
theorem DefineSegment_natCast (startByte size : Nat) (hsize : 1 ≤ size) :
    DefineSegment (startByte : Int) size =
      ((((startByte / kBlockSize) >>> 3 : Nat) : Int), 2 ^ (startByte / kBlockSize % 8),
       ((((startByte + size - 1) / kBlockSize) >>> 3 : Nat) : Int),
       2 ^ ((startByte + size - 1) / kBlockSize % 8)) := by
  have hshift : ∀ n : Nat, n >>> 3 = n / 8 := fun n => by
    rw [Nat.shiftRight_eq_div_pow]
  have hcast1 : (startByte : Int) + (size : Int) - 1 = (((startByte + size - 1 : Nat)) : Int) := by
    omega
  have htdiv : ∀ a : Nat, Int.tdiv (a : Int) ((128 : Nat) : Int) = ((a / 128 : Nat) : Int) :=
    fun a => rfl
  have htmod : ∀ a : Nat, Int.tmod (a : Int) (8 : Int) = ((a % 8 : Nat) : Int) :=
    fun a => rfl
  have hfdiv : ∀ a : Nat, Int.fdiv (a : Int) (8 : Int) = ((a / 8 : Nat) : Int) := fun a => by
    rw [Int.fdiv_eq_tdiv (Int.natCast_nonneg a) (by omega)]
    exact (Int.ofNat_tdiv a 8).symm
  unfold DefineSegment kBlockSize
  rw [hcast1]
  simp only [htdiv, hfdiv, htmod, Int.natCast_nonneg, if_true, Int.toNat_natCast, hshift]

/-- AllocateAt computed into its conflict checks, in the regime the amended C5
theorem describes: with the end byte index below 8 the aligned end bound is 0,
so the (misindexed) 64-bit middle loop never runs and the middle is checked
byte by byte from start_index + 1 to end_index. -/
theorem AllocateAt_eval (ba : List Nat) (startByte size : Nat) (hsize : 1 ≤ size)
    (hsmall : ((startByte + size - 1) / kBlockSize) >>> 3 < 8) :
    AllocateAt ba startByte size =
      if ba.getD ((startByte / kBlockSize) >>> 3) 0 &&&
          (256 - 2 ^ (startByte / kBlockSize % 8)) ≠ 0 then none
      else if ba.getD (((startByte + size - 1) / kBlockSize) >>> 3) 0 &&&
          (2 ^ ((startByte + size - 1) / kBlockSize % 8 + 1) - 1) ≠ 0 then none
      else if allocateAtBytes ba (((startByte + size - 1) / kBlockSize) >>> 3)
          ((startByte / kBlockSize) >>> 3 + 1)
          (((startByte + size - 1) / kBlockSize) >>> 3 + 1) = true then none
      else some (startByte,
        SetSegment ba (((startByte / kBlockSize) >>> 3 : Nat) : Int)
          (2 ^ (startByte / kBlockSize % 8))
          ((((startByte + size - 1) / kBlockSize) >>> 3 : Nat) : Int)
          (2 ^ ((startByte + size - 1) / kBlockSize % 8)) 1) := by
  unfold AllocateAt
  rw [DefineSegment_natCast startByte size hsize]
  dsimp only
  rw [Int.toNat_natCast, Int.toNat_natCast]
  rw [startAdapted_eq (startByte / kBlockSize % 8) (by omega),
    endAdapted_eq ((startByte + size - 1) / kBlockSize % 8) (by omega)]
  have hx : ∀ n : Nat, n >>> 3 = n / 8 := fun n => by rw [Nat.shiftRight_eq_div_pow]
  have hsmall2 : ((startByte + size - 1) / kBlockSize) / 8 < 8 := by
    rw [← hx]
    exact hsmall
  have hE : ((startByte + size - 1) / kBlockSize) >>> 3 -
      ((startByte + size - 1) / kBlockSize) >>> 3 % 8 = 0 := by
    rw [hx]
    omega
  rw [hE]
  rw [allocateAtMiddle64_zero_bound ba ((startByte / kBlockSize) >>> 3)
    ((startByte / kBlockSize) >>> 3 + 1)
    (((startByte + size - 1) / kBlockSize) >>> 3 + 9) (Nat.le_add_left 1 _)]
  dsimp only
  rw [if_neg (by simp : ¬(false = true))]

/-- C5 (counterexample): the span [128, 256) covers exactly block 1, which is
free on the bitmap 0b00000001, yet AllocateAt reports a conflict — the
end-byte check `(end_mask << 1) - 1` also tests the out-of-span block 0. -/
theorem allocateAt_spurious_conflict :
    AllocateAt [1] 128 128 = none ∧
    coveredStart 128 = 1 ∧ coveredEnd 128 128 = 1 ∧ blockBit [1] 1 = false := by
  decide

/-- C5 (amended): for an in-range span whose end block lies below bitmap byte
8 (so the misindexed 64-bit middle check never runs), AllocateAt returns
data + o and marks exactly the covered blocks when every bit of the
byte-granular check range is free, and returns none leaving the bitmap
untouched when some bit of that range is set.  The check range equals the
covered block range when the start and end blocks fall into different bitmap
bytes, but widens to the whole 8-block byte group when the span lies within a
single bitmap byte — occupancy of blocks outside the span then causes a
spurious conflict. -/
theorem allocateAt_boundary_byte_semantics (ba : List Nat) (startByte size : Nat)
    (hsize : 1 ≤ size) (hwf : ∀ b ∈ ba, b < 256)
    (hlen : coveredEnd startByte size >>> 3 < ba.length)
    (hsmall : coveredEnd startByte size >>> 3 < 8) :
    ((∀ t, allocateAtCheckLo startByte size ≤ t → t ≤ allocateAtCheckHi startByte size →
        blockBit ba t = false) →
      ∃ ba2, AllocateAt ba startByte size = some (startByte, ba2) ∧
        ∀ t, blockBit ba2 t =
          (decide (coveredStart startByte ≤ t ∧ t ≤ coveredEnd startByte size) ||
            blockBit ba t)) ∧
    ((∃ t, allocateAtCheckLo startByte size ≤ t ∧ t ≤ allocateAtCheckHi startByte size ∧
        blockBit ba t = true) →
      AllocateAt ba startByte size = none) := by
  have hshift : ∀ n : Nat, n >>> 3 = n / 8 := fun n => by
    rw [Nat.shiftRight_eq_div_pow]
  rw [AllocateAt_eval ba startByte size hsize (by simpa [coveredEnd] using hsmall)]
  simp only [coveredStart, coveredEnd, allocateAtCheckLo, allocateAtCheckHi] at hlen hsmall ⊢
  set SB := startByte / kBlockSize with hSB
  set EB := (startByte + size - 1) / kBlockSize with hEB
  set SI := SB >>> 3 with hSI
  set EI := EB >>> 3 with hEI
  set S := SB % 8 with hS
  set E := EB % 8 with hE2
  have hSI8 : SI = SB / 8 := by rw [hSI, hshift]
  have hEI8 : EI = EB / 8 := by rw [hEI, hshift]
  have hS8 : S < 8 := by rw [hS]; omega
  have hE8 : E < 8 := by rw [hE2]; omega
  have hSBle : SB ≤ EB := by
    rw [hSB, hEB]
    exact Nat.div_le_div_right (by omega)
  have hSBdec : SB = 8 * SI + S := by rw [hSI8, hS]; omega
  have hEBdec : EB = 8 * EI + E := by rw [hEI8, hE2]; omega
  have hSIEI : SI ≤ EI := by
    rw [hSI8, hEI8]
    exact Nat.div_le_div_right hSBle
  have hc1 : (ba.getD SI 0 &&& (256 - 2 ^ S) ≠ 0) ↔
      ∃ k, k < 8 ∧ S ≤ k ∧ blockBit ba (8 * SI + k) = true := by
    rw [and_mask_ne_zero _ _ (by have h1 := Nat.one_le_two_pow (n := S); omega)]
    constructor
    · rintro ⟨k, hk, hbB, hbM⟩
      rw [testBit_startAdapted S hS8 k hk] at hbM
      refine ⟨k, hk, by simpa using hbM, ?_⟩
      rw [blockBit_eq_testBit]
      have e1 : (8 * SI + k) >>> 3 = SI := by rw [hshift]; omega
      have e2 : (8 * SI + k) % 8 = k := by omega
      rw [e1, e2]
      exact hbB
    · rintro ⟨k, hk, hSk, hbit⟩
      rw [blockBit_eq_testBit] at hbit
      have e1 : (8 * SI + k) >>> 3 = SI := by rw [hshift]; omega
      have e2 : (8 * SI + k) % 8 = k := by omega
      rw [e1, e2] at hbit
      exact ⟨k, hk, hbit, by rw [testBit_startAdapted S hS8 k hk]; simpa using hSk⟩
  have hc2 : (ba.getD EI 0 &&& (2 ^ (E + 1) - 1) ≠ 0) ↔
      ∃ k, k < 8 ∧ k ≤ E ∧ blockBit ba (8 * EI + k) = true := by
    rw [and_mask_ne_zero _ _ (by
      have h1 : 2 ^ (E + 1) ≤ 2 ^ 8 := Nat.pow_le_pow_right (by omega) (by omega)
      have h28 : (2 : Nat) ^ 8 = 256 := by norm_num
      omega)]
    constructor
    · rintro ⟨k, hk, hbB, hbM⟩
      rw [testBit_endAdapted E k] at hbM
      refine ⟨k, hk, by simpa using hbM, ?_⟩
      rw [blockBit_eq_testBit]
      have e1 : (8 * EI + k) >>> 3 = EI := by rw [hshift]; omega
      have e2 : (8 * EI + k) % 8 = k := by omega
      rw [e1, e2]
      exact hbB
    · rintro ⟨k, hk, hkE, hbit⟩
      rw [blockBit_eq_testBit] at hbit
      have e1 : (8 * EI + k) >>> 3 = EI := by rw [hshift]; omega
      have e2 : (8 * EI + k) % 8 = k := by omega
      rw [e1, e2] at hbit
      exact ⟨k, hk, hbit, by rw [testBit_endAdapted E k]; simpa using hkE⟩
  have hc3 : (allocateAtBytes ba EI (SI + 1) (EI + 1) = true) ↔
      ∃ t k, SI + 1 ≤ t ∧ t < EI ∧ k < 8 ∧ blockBit ba (8 * t + k) = true := by
    rw [allocateAtBytes_spec ba EI (EI + 1) (SI + 1) (by omega)]
    constructor
    · rintro ⟨t, h1, h2, h3⟩
      have htlen : t < ba.length := by omega
      have hb256 : ba.getD t 0 < 256 := by
        apply hwf
        rw [List.getD_eq_getElem ba 0 htlen]
        exact List.getElem_mem htlen
      rcases (byte_ne_zero_iff _ hb256).mp h3 with ⟨k, hk, hbit⟩
      refine ⟨t, k, h1, h2, hk, ?_⟩
      rw [blockBit_eq_testBit]
      have e1 : (8 * t + k) >>> 3 = t := by rw [hshift]; omega
      have e2 : (8 * t + k) % 8 = k := by omega
      rw [e1, e2]
      exact hbit
    · rintro ⟨t, k, h1, h2, hk, hbit⟩
      refine ⟨t, h1, h2, ?_⟩
      rw [blockBit_eq_testBit] at hbit
      have e1 : (8 * t + k) >>> 3 = t := by rw [hshift]; omega
      have e2 : (8 * t + k) % 8 = k := by omega
      rw [e1, e2] at hbit
      intro h0
      rw [h0, Nat.zero_testBit] at hbit
      exact Bool.false_ne_true hbit
  by_cases hsame : SI = EI
  · rw [if_pos hsame, if_pos hsame]
    have hSE : S ≤ E := by omega
    have hnc3 : ¬(allocateAtBytes ba EI (SI + 1) (EI + 1) = true) := by
      rw [hc3]
      rintro ⟨t, k, h1, h2, _, _⟩
      omega
    constructor
    · intro hfree
      have hnc1 : ¬(ba.getD SI 0 &&& (256 - 2 ^ S) ≠ 0) := by
        rw [hc1]
        rintro ⟨k, hk, hSk, hbit⟩
        rw [hfree (8 * SI + k) (by omega) (by omega)] at hbit
        exact Bool.false_ne_true hbit
      have hnc2 : ¬(ba.getD EI 0 &&& (2 ^ (E + 1) - 1) ≠ 0) := by
        rw [hc2]
        rintro ⟨k, hk, hkE, hbit⟩
        rw [hfree (8 * EI + k) (by omega) (by omega)] at hbit
        exact Bool.false_ne_true hbit
      rw [if_neg hnc1, if_neg hnc2, if_neg hnc3]
      refine ⟨_, rfl, ?_⟩
      intro t
      have hmark := blockBit_SetSegment_one ba SB EB hSBle
        (by rw [← hEI]; exact hlen) t
      rw [← hSI, ← hEI, ← hS, ← hE2] at hmark
      rw [hmark]
    · rintro ⟨t, hlo, hhi, hbit⟩
      have hk8 : t % 8 < 8 := by omega
      have ht : t = 8 * SI + t % 8 := by omega
      by_cases hSk : S ≤ t % 8
      · have hC1 : ba.getD SI 0 &&& (256 - 2 ^ S) ≠ 0 :=
          hc1.mpr ⟨t % 8, hk8, hSk, by rw [← ht]; exact hbit⟩
        rw [if_pos hC1]
      · have hC2 : ba.getD EI 0 &&& (2 ^ (E + 1) - 1) ≠ 0 :=
          hc2.mpr ⟨t % 8, hk8, by omega,
            by rw [show 8 * EI + t % 8 = t by omega]; exact hbit⟩
        by_cases hC1 : ba.getD SI 0 &&& (256 - 2 ^ S) ≠ 0
        · rw [if_pos hC1]
        · rw [if_neg hC1, if_pos hC2]
  · rw [if_neg hsame, if_neg hsame]
    have hlt : SI < EI := by omega
    constructor
    · intro hfree
      have hnc1 : ¬(ba.getD SI 0 &&& (256 - 2 ^ S) ≠ 0) := by
        rw [hc1]
        rintro ⟨k, hk, hSk, hbit⟩
        rw [hfree (8 * SI + k) (by omega) (by omega)] at hbit
        exact Bool.false_ne_true hbit
      have hnc2 : ¬(ba.getD EI 0 &&& (2 ^ (E + 1) - 1) ≠ 0) := by
        rw [hc2]
        rintro ⟨k, hk, hkE, hbit⟩
        rw [hfree (8 * EI + k) (by omega) (by omega)] at hbit
        exact Bool.false_ne_true hbit
      have hnc3 : ¬(allocateAtBytes ba EI (SI + 1) (EI + 1) = true) := by
        rw [hc3]
        rintro ⟨t, k, h1, h2, hk, hbit⟩
        rw [hfree (8 * t + k) (by omega) (by omega)] at hbit
        exact Bool.false_ne_true hbit
      rw [if_neg hnc1, if_neg hnc2, if_neg hnc3]
      refine ⟨_, rfl, ?_⟩
      intro t
      have hmark := blockBit_SetSegment_one ba SB EB hSBle
        (by rw [← hEI]; exact hlen) t
      rw [← hSI, ← hEI, ← hS, ← hE2] at hmark
      rw [hmark]
    · rintro ⟨t, hlo, hhi, hbit⟩
      have hk8 : t % 8 < 8 := by omega
      by_cases h1 : t / 8 = SI
      · have hC1 : ba.getD SI 0 &&& (256 - 2 ^ S) ≠ 0 :=
          hc1.mpr ⟨t % 8, hk8, by omega,
            by rw [show 8 * SI + t % 8 = t by omega]; exact hbit⟩
        rw [if_pos hC1]
      · by_cases h2 : t / 8 = EI
        · have hC2 : ba.getD EI 0 &&& (2 ^ (E + 1) - 1) ≠ 0 :=
            hc2.mpr ⟨t % 8, hk8, by omega,
              by rw [show 8 * EI + t % 8 = t by omega]; exact hbit⟩
          by_cases hC1 : ba.getD SI 0 &&& (256 - 2 ^ S) ≠ 0
          · rw [if_pos hC1]
          · rw [if_neg hC1, if_pos hC2]
        · have hC3 : allocateAtBytes ba EI (SI + 1) (EI + 1) = true :=
            hc3.mpr ⟨t / 8, t % 8, by omega, by omega, hk8,
              by rw [show 8 * (t / 8) + t % 8 = t by omega]; exact hbit⟩
          by_cases hC1 : ba.getD SI 0 &&& (256 - 2 ^ S) ≠ 0
          · rw [if_pos hC1]
          · by_cases hC2 : ba.getD EI 0 &&& (2 ^ (E + 1) - 1) ≠ 0
            · rw [if_neg hC1, if_pos hC2]
            · rw [if_neg hC1, if_neg hC2, if_pos hC3]

/-- Witness for the amended C5 at a concrete input: bitmap [0, 1] (block 8
occupied), span [0, 256) covering blocks 0 and 1 of the all-free byte 0. -/
theorem allocateAt_boundary_byte_semantics_witness :
    ((∀ t, allocateAtCheckLo 0 256 ≤ t → t ≤ allocateAtCheckHi 0 256 →
        blockBit [0, 1] t = false) →
      ∃ ba2, AllocateAt [0, 1] 0 256 = some (0, ba2) ∧
        ∀ t, blockBit ba2 t =
          (decide (coveredStart 0 ≤ t ∧ t ≤ coveredEnd 0 256) ||
            blockBit [0, 1] t)) ∧
    ((∃ t, allocateAtCheckLo 0 256 ≤ t ∧ t ≤ allocateAtCheckHi 0 256 ∧
        blockBit [0, 1] t = true) →
      AllocateAt [0, 1] 0 256 = none) :=
  allocateAt_boundary_byte_semantics [0, 1] 0 256 (by decide) (by decide)
    (by decide) (by decide)

end Tachyon
